import Mathlib

/-!
Shallow embedding of the data-shaping pipeline of `src/app.py` (a BLS
labor-market dashboard script) together with proofs of the specified
properties of that pipeline.

The embedding models, faithfully to the Python source:

* `fetch_bls_data` (src/app.py lines 63-97): the outcome of the single
  network round-trip, the two guard clauses that return `None`
  (transport failure and malformed response shape), the per-series
  processing loop, and the final `sort_index`.
* the pandas operations the loop and the derived-metric code rely on:
  `pd.to_datetime(year + period.str.replace('M', '-'))`,
  `pd.to_numeric` (default `errors='raise'`, i.e. an unparsable value
  raises and aborts the run), column assignment `df[sid] = series`
  (which adopts the series' index when the frame has no columns yet and
  otherwise aligns the series to the frame's existing index),
  `DataFrame.rename`, `Series.diff`, `Series.resample('YE').last()`,
  and `Series.dropna`.

Numeric cell values are modelled by `Dec`, an exact decimal number
(integer mantissa times a power of ten); the script's float values are
decimal literals parsed from strings and the specified properties do
not depend on rounding, so the exact model is adequate and keeps every
definition computable by `decide`.
-/

namespace BLSModel

/-- An exact decimal number `mant / 10 ^ exp`, the model of the float
values produced by `pd.to_numeric` on the API's decimal strings. -/
structure Dec where
  mant : Int
  exp : Nat
deriving DecidableEq, Repr

/-- Exact subtraction of decimals (common-denominator form); models
float subtraction on the parsed decimal values. -/
def Dec.sub (a b : Dec) : Dec :=
  ⟨a.mant * (10 : Int) ^ b.exp - b.mant * (10 : Int) ^ a.exp, a.exp + b.exp⟩

/-- A calendar date at first-of-month granularity, as produced by
`pd.to_datetime` on a `"YYYY-MM"` string. -/
structure Date where
  year : Nat
  month : Nat
deriving DecidableEq, Repr

/-- The order `sort_index` sorts dates by: lexicographic on
(year, month). -/
def dateLe (a b : Date) : Prop :=
  a.year < b.year ∨ (a.year = b.year ∧ a.month ≤ b.month)

/-- Strict lexicographic order on dates ("strictly ascending"). -/
def dateLt (a b : Date) : Prop :=
  a.year < b.year ∨ (a.year = b.year ∧ a.month < b.month)

instance : DecidableRel dateLe := fun a b =>
  (inferInstance : Decidable (a.year < b.year ∨ (a.year = b.year ∧ a.month ≤ b.month)))

instance : DecidableRel dateLt := fun a b =>
  (inferInstance : Decidable (a.year < b.year ∨ (a.year = b.year ∧ a.month < b.month)))

instance : IsTotal Date dateLe :=
  ⟨fun a b => by unfold dateLe; omega⟩

instance : IsTrans Date dateLe :=
  ⟨fun a b c => by unfold dateLe; omega⟩

/-- Digit string to number (`foldl` over decimal digits). -/
def natOfDigits (cs : List Char) : Nat :=
  cs.foldl (fun n c => n * 10 + (c.toNat - 48)) 0

/-- Parse a nonempty all-digit character list, failing otherwise. -/
def digitsToNat (cs : List Char) : Option Nat :=
  if cs ≠ [] ∧ cs.all Char.isDigit then some (natOfDigits cs) else none

/-- Split a character list at every `'-'` (the `splitOn "-"` of the
date-string parse). -/
def splitDash : List Char → List (List Char)
  | [] => [[]]
  | c :: rest =>
    if c = '-' then [] :: splitDash rest
    else
      match splitDash rest with
      | [] => [[c]]
      | g :: gs => (c :: g) :: gs

/-- Model of `pd.to_datetime` on the strings the script builds
(`year + period.replace('M', '-')`): a `"YYYY-MM"` shaped string with a
month between 1 and 12 parses to the first of that month; anything
else (for example `"2020-13"` from period `"M13"`, or `"2020A01"` from
an annual period code) raises, modelled as `none`. -/
def parseYM (s : String) : Option Date :=
  match splitDash s.data with
  | [y, m] =>
    match digitsToNat y, digitsToNat m with
    | some yn, some mn => if 1 ≤ mn ∧ mn ≤ 12 then some ⟨yn, mn⟩ else none
    | _, _ => none
  | _ => none

/-- Model of `period.str.replace('M', '-')`: the blind character
replacement the source applies to the period code. -/
def replaceM (s : String) : String :=
  ⟨s.data.map (fun c => if c = 'M' then '-' else c)⟩

/-- Model of `pd.to_numeric` on one value string: an optionally signed
decimal literal (`"100"`, `"5.0"`, `"-2.57"`, `".5"`) parses to the
exact decimal it denotes; anything else (for example `"N/A"`) raises,
modelled as `none`. -/
def parseNumeric (s : String) : Option Dec :=
  match s.data with
  | [] => none
  | c :: cs =>
    let sgn : Int := if c = '-' then -1 else 1
    let body : List Char := if c = '-' ∨ c = '+' then cs else c :: cs
    let ip : List Char := body.takeWhile (fun ch => ch ≠ '.')
    let fp : List Char := body.dropWhile (fun ch => ch ≠ '.')
    match fp with
    | [] => (digitsToNat ip).map (fun n => ⟨sgn * n, 0⟩)
    | _ :: fr =>
      if (ip ≠ [] ∨ fr ≠ []) ∧ ip.all Char.isDigit ∧ fr.all Char.isDigit then
        some ⟨sgn * (natOfDigits ip * (10 : Int) ^ fr.length + natOfDigits fr), fr.length⟩
      else none

/-- One raw observation of the API response: the `year`, `period` and
`value` fields, all strings, of one entry of a series' `data` array. -/
structure RawObs where
  year : String
  period : String
  value : String
deriving DecidableEq, Repr

/-- One series of the API response: its `seriesID`, its `catalog`
metadata (a string-keyed record, here the key-value list) and its
`data` array of observations. -/
structure RawSeries where
  seriesID : String
  catalog : List (String × String)
  data : List RawObs
deriving DecidableEq, Repr

/-- The `Results` object of the response; `series = none` models a
`Results` object with no `series` field. -/
structure ResultsField where
  series : Option (List RawSeries)
deriving DecidableEq, Repr

/-- The decoded response body; `results = none` models a body with no
`Results` field. -/
structure ApiData where
  results : Option ResultsField
deriving DecidableEq, Repr

/-- The outcome of the single `requests.post` round-trip: either a
transport-level failure (connection error or non-success status, the
`requests.exceptions.RequestException` branch) or a decoded body. -/
inductive FetchOutcome where
  | transport (detail : String)
  | success (body : ApiData)
deriving DecidableEq, Repr

/-- First match in an association list (`dict` lookup model). -/
def lookupFirst {α β : Type} [DecidableEq α] : List (α × β) → α → Option β
  | [], _ => none
  | (a, b) :: rest, k => if a = k then some b else lookupFirst rest k

/-- The model of the pandas `DataFrame` the loop builds: an index of
dates (row order) and an ordered list of columns, each keyed by a
string and holding the assigned series' (date, value) pairs.  A cell
of the frame is read through the index (`cellAt`); a date outside the
index is not a row of the frame. -/
structure Table where
  index : List Date
  cols : List (String × List (Date × Dec))
deriving DecidableEq, Repr

instance {ε α : Type} [DecidableEq ε] [DecidableEq α] : DecidableEq (Except ε α) :=
  fun a b =>
    match a, b with
    | .error e, .error f =>
      if h : e = f then .isTrue (by rw [h]) else .isFalse (by simp [h])
    | .ok x, .ok y =>
      if h : x = y then .isTrue (by rw [h]) else .isFalse (by simp [h])
    | .error _, .ok _ => .isFalse (by simp)
    | .ok _, .error _ => .isFalse (by simp)

/-- Display-name resolution of the source,
`series['catalog'].get('series_title', series_id)`: the catalog's
title if present, else the raw identifier. -/
def resolveName (s : RawSeries) : String :=
  (lookupFirst s.catalog "series_title").getD s.seriesID

/-- Error-propagating map: the model of applying a vectorised pandas
conversion to every row of a column — the first failing row raises and
the whole conversion fails. -/
def mapE {α β : Type} (f : α → Except String β) : List α → Except String (List β)
  | [] => .ok []
  | a :: as =>
    match f a with
    | .error e => .error e
    | .ok b =>
      match mapE f as with
      | .error e => .error e
      | .ok bs => .ok (b :: bs)

/-- Date of one observation:
`pd.to_datetime(year + period.str.replace('M', '-'))` on one row. -/
def parseObsDate (o : RawObs) : Except String Date :=
  match parseYM (o.year ++ replaceM o.period) with
  | some d => .ok d
  | none => .error ("Unable to parse date: " ++ o.year ++ replaceM o.period)

/-- The date column of one series (source line 88). -/
def parseDates (data : List RawObs) : Except String (List Date) :=
  mapE parseObsDate data

/-- The numeric value column of one series (source line 90,
`pd.to_numeric` with its default `errors='raise'`). -/
def parseValues (data : List RawObs) : Except String (List Dec) :=
  mapE (fun o =>
    match parseNumeric o.value with
    | some v => .ok v
    | none => .error ("Unable to parse string: " ++ o.value)) data

/-- One iteration body of the loop over `data['Results']['series']`:
resolve the (unused) display name, build the date index, convert the
value column.  The result is the date-indexed value series that is
assigned to the frame.  Either conversion raising propagates. -/
def processSeries (s : RawSeries) : Except String (List (Date × Dec)) :=
  let _seriesName := resolveName s
  match parseDates s.data with
  | .error e => .error e
  | .ok ds =>
    match parseValues s.data with
    | .error e => .error e
    | .ok vs => .ok (ds.zip vs)

/-- Replace the column named `name` if present (pandas overwrites an
existing column in place), else append it. -/
def setCol : List (String × List (Date × Dec)) → String → List (Date × Dec) →
    List (String × List (Date × Dec))
  | [], name, col => [(name, col)]
  | (a, b) :: rest, name, col =>
    if a = name then (name, col) :: rest else (a, b) :: setCol rest name col

/-- Column assignment `df[series_id] = series_data['value']`
(source line 92).  On a frame with no columns yet the frame adopts the
series' own index; otherwise the frame's index is left unchanged and
the series is aligned to it (labels of the series outside the frame's
index are dropped; index rows missing from the series read as absent).
Aligning a series with duplicate labels raises. -/
def assignCol (t : Table) (name : String) (col : List (Date × Dec)) :
    Except String Table :=
  if t.cols.isEmpty then
    .ok ⟨col.map Prod.fst, [(name, col)]⟩
  else if (col.map Prod.fst).Nodup then
    .ok ⟨t.index, setCol t.cols name col⟩
  else
    .error "cannot reindex on an axis with duplicate labels"

/-- The final `df.sort_index()` (source line 95): sorts the rows of
the frame by date; in this representation only the index list orders
the rows, so sorting the index sorts the frame. -/
def sortTable (t : Table) : Table :=
  ⟨List.insertionSort dateLe t.index, t.cols⟩

/-- The loop over the series of the batch followed by the final sort. -/
def buildTableGo : List RawSeries → Table → Except String Table
  | [], t => .ok (sortTable t)
  | s :: rest, t =>
    match processSeries s with
    | .error e => .error e
    | .ok col =>
      match assignCol t s.seriesID col with
      | .error e => .error e
      | .ok t2 => buildTableGo rest t2

/-- `build_table`: the whole processing part of `fetch_bls_data`
(source lines 82-97), starting from the empty `pd.DataFrame()`.  An
`.error` result models an uncaught exception escaping the function. -/
def buildTable (ss : List RawSeries) : Except String Table :=
  buildTableGo ss ⟨[], []⟩

/-- `fetch_bls_data` (source lines 63-97).  A transport failure is
caught and yields `None`; a body missing `Results` or
`Results.series` yields `None`; otherwise the table is built (and an
exception raised while building escapes uncaught). -/
def fetch_bls_data : FetchOutcome → Except String (Option Table)
  | .transport _ => .ok none
  | .success body =>
    match body.results with
    | none => .ok none
    | some r =>
      match r.series with
      | none => .ok none
      | some ss =>
        match buildTable ss with
        | .error e => .error e
        | .ok t => .ok (some t)

/-- The message printed by the `bls_df is None` guard
(source line 105). -/
def fetchFailMsg : String :=
  "Could not retrieve data. Please check your API key and network connection."

/-- Observable outcome of one run of the script up to the hand-off to
the rendering layer: halted gracefully with a message and no table,
crashed on an uncaught exception (no table either), or reached the
dashboard with a built table. -/
inductive RunResult where
  | halted (msg : String)
  | crashed (msg : String)
  | dashboard (t : Table)
deriving DecidableEq, Repr

/-- The top level of the script (source lines 101-106): run the fetch
once — there is no retry — and halt with `fetchFailMsg` when it
returned `None`. -/
def runApp (o : FetchOutcome) : RunResult :=
  match fetch_bls_data o with
  | .error e => .crashed e
  | .ok none => .halted fetchFailMsg
  | .ok (some t) => .dashboard t

/-- The stored column of the frame keyed `name`, if any. -/
def findCol (t : Table) (name : String) : Option (List (Date × Dec)) :=
  lookupFirst t.cols name

/-- The cell of column `name` at index date `d`: the aligned value if
the column has an observation at `d`, absent (`NaN`) otherwise.  Only
dates of `t.index` are rows of the frame. -/
def cellAt (t : Table) (name : String) (d : Date) : Option Dec :=
  match findCol t name with
  | none => none
  | some c => lookupFirst c d

/-- The column `name` read off row by row in index order — the pandas
`Series` `df[name]`, with `none` for `NaN`. -/
def columnValues (t : Table) (name : String) : List (Option Dec) :=
  t.index.map (fun d => cellAt t name d)

/-- Subtraction lifted to possibly-absent cells: defined only when
both operands are present (`NaN` propagates). -/
def osub : Option Dec → Option Dec → Option Dec
  | some a, some b => some (a.sub b)
  | _, _ => none

/-- `Series.diff()`: position 0 becomes absent, and every later
position holds the difference with the previous row (absent when
either row is absent). -/
def diffList : List (Option Dec) → List (Option Dec)
  | [] => []
  | x :: xs => none :: List.zipWith osub xs (x :: xs)

/-- The month-over-month derived series (source line 123,
`bls_df['Total Nonfarm Employment'].diff()`, generic in the column). -/
def monthOverMonth (t : Table) (name : String) : List (Option Dec) :=
  diffList (columnValues t name)

/-- `DataFrame.rename(columns=mapping)` (source lines 112-120):
relabel each column through the mapping, keeping the original key for
columns the mapping does not mention; rows and values untouched. -/
def renameCols (t : Table) (m : List (String × String)) : Table :=
  ⟨t.index,
   t.cols.map (fun p =>
     (match lookupFirst m p.1 with
      | some lbl => lbl
      | none => p.1, p.2))⟩

/-- The calendar years the `resample('YE')` bins cover: every year
from the smallest to the largest year of the index (resampling bins
span the whole range, including years with no rows). -/
def tableYears (t : Table) : List Nat :=
  match t.index.map Date.year with
  | [] => []
  | y :: ys =>
    (List.range (ys.foldl Nat.max y + 1 - ys.foldl Nat.min y)).map
      (fun k => ys.foldl Nat.min y + k)

/-- Last present value of a list read left to right (`Resampler.last`
keeps the last non-null entry of the bin). -/
def lastSome (l : List (Option Dec)) : Option Dec :=
  l.foldl (fun acc v => match v with | some x => some x | none => acc) none

/-- `resample('YE').last()` for one bin: the last non-null value of
column `name` among the index rows of year `y`, in index order. -/
def lastInYear (t : Table) (name : String) (y : Nat) : Option Dec :=
  lastSome ((t.index.filter (fun d => d.year == y)).map (fun d => cellAt t name d))

/-- The year-end series `resample('YE').last()` over all bins. -/
def yearlyLast (t : Table) (name : String) : List (Option Dec) :=
  (tableYears t).map (fun y => lastInYear t name y)

/-- `resample('YE').last().diff()` keyed by year (source line 132). -/
def yearlyChange (t : Table) (name : String) : List (Nat × Option Dec) :=
  (tableYears t).zip (diffList (yearlyLast t name))

/-- The `.dropna()` of source line 133: keep only the year entries
whose difference is present. -/
def yearlyChangeDropna (t : Table) (name : String) : List (Nat × Dec) :=
  (yearlyChange t name).filterMap (fun p =>
    match p.2 with
    | some v => some (p.1, v)
    | none => none)

/-- A valid `RawSeriesBatch` in the sense of the data-model invariant
"value ... never present twice for the same year+period within one
series": no series carries two observations of the same calendar
date. -/
def validBatch (ss : List RawSeries) : Bool :=
  ss.all (fun s =>
    match parseDates s.data with
    | .ok ds => decide ds.Nodup
    | .error _ => true)

/-- The dates a series' observations parse to (empty when the date
conversion of that series raises). -/
def observedDates (s : RawSeries) : List Date :=
  match parseDates s.data with
  | .ok ds => ds
  | .error _ => []

/-- All dates observed across the series of a batch. -/
def unionDates (ss : List RawSeries) : List Date :=
  (ss.map observedDates).flatten

/-- Malformed response shape: the body misses the `Results` field, or
its `Results` object misses the `series` field — the condition of the
guard on source line 78. -/
def malformedShape (b : ApiData) : Prop :=
  b.results = none ∨ ∃ r, b.results = some r ∧ r.series = none

/-- First demo series: `"X"` arrives newest-first with three
observations. -/
def demoS1 : RawSeries :=
  ⟨"X", [("series_title", "Series X")],
   [⟨"2020", "M03", "3"⟩, ⟨"2020", "M01", "1"⟩, ⟨"2020", "M02", "2"⟩]⟩

/-- Second demo series: `"Y"` has observations at one date shared with
`"X"` and one date `"X"` does not cover. -/
def demoS2 : RawSeries :=
  ⟨"Y", [], [⟨"2020", "M01", "5.0"⟩, ⟨"2020", "M04", "4.8"⟩]⟩

/-- A small concrete batch of the two demo series. -/
def demoBatch : List RawSeries := [demoS1, demoS2]

/-- The value series `processSeries demoS1` evaluates to. -/
def demoColX : List (Date × Dec) :=
  [(⟨2020, 3⟩, ⟨3, 0⟩), (⟨2020, 1⟩, ⟨1, 0⟩), (⟨2020, 2⟩, ⟨2, 0⟩)]

/-- The value series `processSeries demoS2` evaluates to. -/
def demoColY : List (Date × Dec) :=
  [(⟨2020, 1⟩, ⟨50, 1⟩), (⟨2020, 4⟩, ⟨48, 1⟩)]

/-- The table `buildTable demoBatch` evaluates to: the index is the
sorted dates of the first series only. -/
def demoT : Table :=
  ⟨[⟨2020, 1⟩, ⟨2020, 2⟩, ⟨2020, 3⟩],
   [("X", [(⟨2020, 3⟩, ⟨3, 0⟩), (⟨2020, 1⟩, ⟨1, 0⟩), (⟨2020, 2⟩, ⟨2, 0⟩)]),
    ("Y", [(⟨2020, 1⟩, ⟨50, 1⟩), (⟨2020, 4⟩, ⟨48, 1⟩)])]⟩

/-- A multi-year table with a level column `"L"`: observations in
2020, 2022 (twice) and 2023 — calendar year 2021 has no rows. -/
def demoYearT : Table :=
  ⟨[⟨2020, 5⟩, ⟨2022, 3⟩, ⟨2022, 8⟩, ⟨2023, 1⟩],
   [("L", [(⟨2020, 5⟩, ⟨2, 0⟩), (⟨2022, 3⟩, ⟨9, 0⟩),
           (⟨2022, 8⟩, ⟨5, 0⟩), (⟨2023, 1⟩, ⟨7, 0⟩)])]⟩

/-- A batch in which one single observation carries the non-numeric
value `"N/A"`; every other observation is well formed. -/
def naBatch : List RawSeries :=
  [⟨"X", [("series_title", "Series X")],
    [⟨"2020", "M01", "100"⟩, ⟨"2020", "M02", "N/A"⟩]⟩,
   ⟨"Y", [], [⟨"2020", "M01", "5.0"⟩]⟩]

/-- A batch whose only observation carries the non-monthly period code
`"M13"` (the annual-average code real BLS responses can contain). -/
def m13Batch : List RawSeries :=
  [⟨"Z", [("series_title", "Series Z")], [⟨"2020", "M13", "100"⟩]⟩]

/-- A rename mapping mentioning `"X"` but not `"Y"`. -/
def demoMap : List (String × String) := [("X", "Series X")]

/-! ### Helper lemmas -/

theorem lookupFirst_eq_none {α β : Type} [DecidableEq α] (l : List (α × β)) (k : α)
    (h : k ∉ l.map Prod.fst) : lookupFirst l k = none := by
  induction l with
  | nil => rfl
  | cons p rest ih =>
    obtain ⟨a, b⟩ := p
    simp only [List.map_cons, List.mem_cons, not_or] at h
    simp only [lookupFirst]
    rw [if_neg (Ne.symm h.1)]
    exact ih h.2

theorem lookupFirst_append_right {α β : Type} [DecidableEq α] (l1 l2 : List (α × β)) (k : α)
    (h : lookupFirst l1 k = none) : lookupFirst (l1 ++ l2) k = lookupFirst l2 k := by
  induction l1 with
  | nil => rfl
  | cons p rest ih =>
    obtain ⟨a, b⟩ := p
    simp only [lookupFirst] at h
    by_cases hk : a = k
    · simp [hk] at h
    · simp only [List.cons_append, lookupFirst, if_neg hk] at h ⊢
      exact ih h

theorem mapE_ok_length {α β : Type} (f : α → Except String β) (l : List α) (l2 : List β)
    (h : mapE f l = .ok l2) : l2.length = l.length := by
  induction l generalizing l2 with
  | nil => simp only [mapE] at h; cases h; rfl
  | cons a as ih =>
    simp only [mapE] at h
    cases hfa : f a with
    | error e => rw [hfa] at h; cases h
    | ok b =>
      rw [hfa] at h
      cases hrest : mapE f as with
      | error e => rw [hrest] at h; cases h
      | ok bs =>
        rw [hrest] at h
        cases h
        simp [ih bs hrest]

theorem mapE_ok_forall {α β : Type} (f : α → Except String β) (l : List α) (l2 : List β)
    (h : mapE f l = .ok l2) : ∀ a ∈ l, ∃ b, f a = .ok b := by
  induction l generalizing l2 with
  | nil => intro a ha; cases ha
  | cons a as ih =>
    intro x hx
    simp only [mapE] at h
    cases hfa : f a with
    | error e => rw [hfa] at h; cases h
    | ok b =>
      rw [hfa] at h
      cases hrest : mapE f as with
      | error e => rw [hrest] at h; cases h
      | ok bs =>
        rcases List.mem_cons.mp hx with rfl | hxs
        · exact ⟨b, hfa⟩
        · exact ih bs hrest x hxs

theorem diffList_length (l : List (Option Dec)) : (diffList l).length = l.length := by
  cases l with
  | nil => rfl
  | cons x xs => simp [diffList, List.length_zipWith]

theorem diffList_getElem_zero (l : List (Option Dec)) (h : 0 < (diffList l).length) :
    (diffList l)[0] = none := by
  cases l with
  | nil => simp [diffList] at h
  | cons x xs => rfl

theorem diffList_getElem_succ (l : List (Option Dec)) (i : Nat) (h : i + 1 < l.length)
    (hi : i < l.length) (h2 : i + 1 < (diffList l).length) :
    (diffList l)[i + 1] = osub l[i + 1] l[i] := by
  cases l with
  | nil => simp at h
  | cons x xs =>
    have hx : i < xs.length := by simpa using h
    have hz : i < (List.zipWith osub xs (x :: xs)).length := by
      simp [List.length_zipWith]; omega
    show (List.zipWith osub xs (x :: xs))[i] = _
    rw [List.getElem_zipWith]
    rfl

theorem dateLt_of_le_of_ne (a b : Date) (hle : dateLe a b) (hne : a ≠ b) : dateLt a b := by
  obtain ⟨ya, ma⟩ := a
  obtain ⟨yb, mb⟩ := b
  simp only [dateLe] at hle
  simp only [dateLt]
  simp only [ne_eq, Date.mk.injEq, not_and] at hne
  by_cases hy : ya = yb
  · subst hy
    rcases hle with h | h
    · omega
    · exact Or.inr ⟨rfl, lt_of_le_of_ne h.2 (fun hm => hne rfl hm)⟩
  · rcases hle with h | h
    · exact Or.inl h
    · exact absurd h.1 hy

theorem sorted_nodup_pairwise_lt (l : List Date) (hs : List.Sorted dateLe l)
    (hn : l.Nodup) : List.Pairwise dateLt l :=
  (hs.and hn).imp (fun h => dateLt_of_le_of_ne _ _ h.1 h.2)

theorem processSeries_ok_parts (s : RawSeries) (col : List (Date × Dec))
    (hps : processSeries s = .ok col) :
    ∃ ds vs, parseDates s.data = .ok ds ∧ parseValues s.data = .ok vs ∧ col = ds.zip vs := by
  unfold processSeries at hps
  cases hds : parseDates s.data with
  | error e => rw [hds] at hps; cases hps
  | ok ds =>
    rw [hds] at hps
    cases hvs : parseValues s.data with
    | error e => rw [hvs] at hps; cases hps
    | ok vs =>
      rw [hvs] at hps
      cases hps
      exact ⟨ds, vs, rfl, rfl, rfl⟩

theorem processSeries_keys (s : RawSeries) (col : List (Date × Dec)) (ds : List Date)
    (hps : processSeries s = .ok col) (hds : parseDates s.data = .ok ds) :
    col.map Prod.fst = ds := by
  obtain ⟨ds2, vs, hds2, hvs, hcol⟩ := processSeries_ok_parts s col hps
  rw [hds] at hds2
  cases hds2
  subst hcol
  exact List.map_fst_zip ds vs (by
    rw [mapE_ok_length _ _ _ hds, mapE_ok_length _ _ _ hvs])

theorem setCol_ne_nil (cols : List (String × List (Date × Dec))) (name : String)
    (col : List (Date × Dec)) (h : cols ≠ []) : setCol cols name col ≠ [] := by
  cases cols with
  | nil => simp [setCol]
  | cons p rest =>
    obtain ⟨a, b⟩ := p
    simp only [setCol]
    split <;> simp

theorem assignCol_nonempty (t : Table) (name : String) (col : List (Date × Dec)) (t2 : Table)
    (h : assignCol t name col = .ok t2) (h0 : t.cols ≠ []) :
    t2.index = t.index ∧ t2.cols ≠ [] := by
  unfold assignCol at h
  rw [if_neg (by simpa using h0)] at h
  split at h
  · cases h
    exact ⟨rfl, setCol_ne_nil _ _ _ h0⟩
  · cases h

theorem go_index (ss : List RawSeries) (t0 t : Table) (h0 : t0.cols ≠ [])
    (hgo : buildTableGo ss t0 = .ok t) :
    t.index = List.insertionSort dateLe t0.index := by
  induction ss generalizing t0 with
  | nil =>
    simp only [buildTableGo] at hgo
    cases hgo
    rfl
  | cons s rest ih =>
    simp only [buildTableGo] at hgo
    cases hps : processSeries s with
    | error e => simp only [hps] at hgo; exact Except.noConfusion hgo
    | ok col =>
      simp only [hps] at hgo
      cases hassign : assignCol t0 s.seriesID col with
      | error e => simp only [hassign] at hgo; exact Except.noConfusion hgo
      | ok t1 =>
        simp only [hassign] at hgo
        obtain ⟨hidx, hne⟩ := assignCol_nonempty t0 s.seriesID col t1 hassign h0
        rw [ih t1 hne hgo, hidx]

theorem buildTable_cons_index (s : RawSeries) (rest : List RawSeries) (t : Table)
    (col : List (Date × Dec)) (hps : processSeries s = .ok col)
    (hok : buildTable (s :: rest) = .ok t) :
    t.index = List.insertionSort dateLe (col.map Prod.fst) := by
  unfold buildTable at hok
  simp only [buildTableGo, hps] at hok
  have hassign : assignCol ⟨[], []⟩ s.seriesID col =
      .ok ⟨col.map Prod.fst, [(s.seriesID, col)]⟩ := rfl
  rw [hassign] at hok
  exact go_index rest _ t (by simp) hok

theorem go_processed (ss : List RawSeries) (t0 t : Table)
    (hgo : buildTableGo ss t0 = .ok t) :
    ∀ s ∈ ss, ∃ col, processSeries s = .ok col := by
  induction ss generalizing t0 with
  | nil => intro s hs; cases hs
  | cons s1 rest ih =>
    intro s hs
    simp only [buildTableGo] at hgo
    cases hps : processSeries s1 with
    | error e => simp only [hps] at hgo; exact Except.noConfusion hgo
    | ok col =>
      simp only [hps] at hgo
      cases hassign : assignCol t0 s1.seriesID col with
      | error e => simp only [hassign] at hgo; exact Except.noConfusion hgo
      | ok t1 =>
        simp only [hassign] at hgo
        rcases List.mem_cons.mp hs with rfl | hs2
        · exact ⟨col, hps⟩
        · exact ih t1 hgo s hs2

theorem lookupFirst_append_left {α β : Type} [DecidableEq α] (l1 l2 : List (α × β)) (k : α)
    (v : β) (h : lookupFirst l1 k = some v) : lookupFirst (l1 ++ l2) k = some v := by
  induction l1 with
  | nil => cases h
  | cons p rest ih =>
    obtain ⟨a, b⟩ := p
    by_cases hk : a = k
    · simpa [lookupFirst, hk] using h
    · simp only [lookupFirst, if_neg hk] at h
      simp only [List.cons_append, lookupFirst, if_neg hk]
      exact ih h

theorem setCol_lookup_same (cols : List (String × List (Date × Dec))) (name : String)
    (col : List (Date × Dec)) : lookupFirst (setCol cols name col) name = some col := by
  induction cols with
  | nil => simp [setCol, lookupFirst]
  | cons p rest ih =>
    obtain ⟨a, b⟩ := p
    by_cases hk : a = name
    · simp [setCol, hk, lookupFirst]
    · simp only [setCol, if_neg hk, lookupFirst, if_neg hk]
      exact ih

theorem setCol_lookup_other (cols : List (String × List (Date × Dec))) (name n2 : String)
    (col : List (Date × Dec)) (hne : n2 ≠ name) :
    lookupFirst (setCol cols n2 col) name = lookupFirst cols name := by
  induction cols with
  | nil => simp [setCol, lookupFirst, if_neg hne]
  | cons p rest ih =>
    obtain ⟨a, b⟩ := p
    by_cases hk : a = n2
    · subst hk
      simp only [setCol, if_pos rfl, lookupFirst, if_neg hne]
    · simp only [setCol, if_neg hk, lookupFirst]
      by_cases ha : a = name
      · simp [ha]
      · simp only [if_neg ha]
        exact ih

theorem assignCol_lookup_same (t : Table) (name : String) (col : List (Date × Dec))
    (t2 : Table) (h : assignCol t name col = .ok t2) :
    lookupFirst t2.cols name = some col := by
  unfold assignCol at h
  split at h
  · cases h
    simp [lookupFirst]
  · split at h
    · cases h
      exact setCol_lookup_same t.cols name col
    · exact Except.noConfusion h

theorem assignCol_lookup_other (t : Table) (name n2 : String) (col : List (Date × Dec))
    (t2 : Table) (h : assignCol t n2 col = .ok t2) (hne : n2 ≠ name) :
    lookupFirst t2.cols name = lookupFirst t.cols name := by
  unfold assignCol at h
  split at h
  · cases h
    rename_i hempty
    rw [List.isEmpty_iff.mp hempty]
    simp [lookupFirst, if_neg hne]
  · split at h
    · cases h
      exact setCol_lookup_other t.cols name n2 col hne
    · exact Except.noConfusion h

theorem go_keeps (ss : List RawSeries) (t0 t : Table) (name : String)
    (col : List (Date × Dec)) (hgo : buildTableGo ss t0 = .ok t)
    (hsome : lookupFirst t0.cols name = some col)
    (hall : ∀ s ∈ ss, s.seriesID = name → processSeries s = .ok col) :
    lookupFirst t.cols name = some col := by
  induction ss generalizing t0 with
  | nil =>
    simp only [buildTableGo] at hgo
    cases hgo
    exact hsome
  | cons s1 rest ih =>
    simp only [buildTableGo] at hgo
    cases hps : processSeries s1 with
    | error e => simp only [hps] at hgo; exact Except.noConfusion hgo
    | ok c1 =>
      simp only [hps] at hgo
      cases hassign : assignCol t0 s1.seriesID c1 with
      | error e => simp only [hassign] at hgo; exact Except.noConfusion hgo
      | ok t1 =>
        simp only [hassign] at hgo
        by_cases hid : s1.seriesID = name
        · have hc1 : c1 = col := by
            have := hall s1 (List.mem_cons_self s1 rest) hid
            rw [hps] at this
            exact (Except.ok.injEq _ _).mp this
          subst hc1
          rw [hid] at hassign
          exact ih t1 hgo (assignCol_lookup_same t0 name c1 t1 hassign)
            (fun s hs => hall s (List.mem_cons_of_mem s1 hs))
        · have hkeep := assignCol_lookup_other t0 name s1.seriesID c1 t1 hassign hid
          rw [hsome] at hkeep
          exact ih t1 hgo hkeep (fun s hs => hall s (List.mem_cons_of_mem s1 hs))

theorem go_col (ss : List RawSeries) (t0 t : Table) (s : RawSeries) (name : String)
    (col : List (Date × Dec)) (hgo : buildTableGo ss t0 = .ok t)
    (hnone : lookupFirst t0.cols name = none) (hs : s ∈ ss) (hid : s.seriesID = name)
    (huniq : ∀ s2 ∈ ss, s2.seriesID = name → s2 = s)
    (hps : processSeries s = .ok col) :
    lookupFirst t.cols name = some col := by
  induction ss generalizing t0 with
  | nil => cases hs
  | cons s1 rest ih =>
    simp only [buildTableGo] at hgo
    cases hps1 : processSeries s1 with
    | error e => simp only [hps1] at hgo; exact Except.noConfusion hgo
    | ok c1 =>
      simp only [hps1] at hgo
      cases hassign : assignCol t0 s1.seriesID c1 with
      | error e => simp only [hassign] at hgo; exact Except.noConfusion hgo
      | ok t1 =>
        simp only [hassign] at hgo
        by_cases hid1 : s1.seriesID = name
        · have hs1 : s1 = s := huniq s1 (List.mem_cons_self s1 rest) hid1
          subst hs1
          have hc1 : c1 = col := by
            rw [hps] at hps1
            exact ((Except.ok.injEq _ _).mp hps1).symm
          subst hc1
          rw [hid1] at hassign
          exact go_keeps rest t1 t name c1 hgo
            (assignCol_lookup_same t0 name c1 t1 hassign)
            (fun s2 hs2 hid2 => by
              rw [huniq s2 (List.mem_cons_of_mem s1 hs2) hid2]
              exact hps)
        · have hs2 : s ∈ rest := by
            rcases List.mem_cons.mp hs with rfl | h2
            · exact absurd hid hid1
            · exact h2
          have hkeep := assignCol_lookup_other t0 name s1.seriesID c1 t1 hassign hid1
          rw [hnone] at hkeep
          exact ih t1 hgo hkeep hs2
            (fun s2 h2 hid2 => huniq s2 (List.mem_cons_of_mem s1 h2) hid2)

theorem validBatch_nodup (ss : List RawSeries) (s : RawSeries) (ds : List Date)
    (hv : validBatch ss = true) (hs : s ∈ ss) (hds : parseDates s.data = .ok ds) :
    ds.Nodup := by
  have h := List.all_eq_true.mp hv s hs
  rw [hds] at h
  simpa using h

/-! ### Claim theorems -/

/-- Claim C2: for every run in which the fetch fails at transport
level or the response is structurally malformed, the script surfaces
the user-visible message and halts without producing any table; the
single fetch is never retried (the run evaluates `fetch_bls_data`
exactly once by construction of `runApp`). -/
theorem fetch_failure_halts (detail : String) (b : ApiData) (hb : malformedShape b) :
    runApp (.transport detail) = .halted fetchFailMsg ∧
    runApp (.success b) = .halted fetchFailMsg := by
  constructor
  · rfl
  · rcases hb with h | ⟨r, hr, hs⟩
    · simp [runApp, fetch_bls_data, h]
    · simp [runApp, fetch_bls_data, hr, hs]

theorem fetch_failure_halts_witness :
    runApp (.transport "connection error") = .halted fetchFailMsg ∧
    runApp (.success ⟨none⟩) = .halted fetchFailMsg :=
  fetch_failure_halts "connection error" ⟨none⟩ (Or.inl rfl)

/-- Claim C10: the transport-failure branch and the malformed-shape
branch of `fetch_bls_data` return the very same value — `None` with no
error datum attached — so the caller cannot tell the two failure kinds
apart from the returned value. -/
theorem fetch_failures_indistinct (detail : String) (b : ApiData) (hb : malformedShape b) :
    fetch_bls_data (.transport detail) = .ok none ∧
    fetch_bls_data (.success b) = fetch_bls_data (.transport detail) := by
  constructor
  · rfl
  · rcases hb with h | ⟨r, hr, hs⟩
    · simp [fetch_bls_data, h]
    · simp [fetch_bls_data, hr, hs]

theorem fetch_failures_indistinct_witness :
    fetch_bls_data (.transport "timeout") = .ok none ∧
    fetch_bls_data (.success ⟨some ⟨none⟩⟩) = fetch_bls_data (.transport "timeout") :=
  fetch_failures_indistinct "timeout" ⟨some ⟨none⟩⟩ (Or.inr ⟨⟨none⟩, rfl, rfl⟩)

/-- Claim C9: for every series the display name is resolved from the
catalog metadata, falling back to the raw series identifier exactly
when the catalog holds no `series_title`. -/
theorem resolveName_spec (s : RawSeries) :
    (lookupFirst s.catalog "series_title" = none → resolveName s = s.seriesID) ∧
    (∀ ttl, lookupFirst s.catalog "series_title" = some ttl → resolveName s = ttl) := by
  constructor
  · intro h
    simp [resolveName, h]
  · intro ttl h
    simp [resolveName, h]

theorem resolveName_spec_witness :
    resolveName ⟨"LNS11000000", [], []⟩ = "LNS11000000" ∧
    resolveName ⟨"CES0000000001", [("series_title", "Total Nonfarm Employment")], []⟩ =
      "Total Nonfarm Employment" :=
  ⟨(resolveName_spec ⟨"LNS11000000", [], []⟩).1 (by decide),
   (resolveName_spec ⟨"CES0000000001", [("series_title", "Total Nonfarm Employment")], []⟩).2
     "Total Nonfarm Employment" (by decide)⟩

/-- Claim C1 (counterexample): a batch with value `"N/A"` for one
point does not merely lose that point — `pd.to_numeric` (default
`errors='raise'`) raises, the whole run aborts with an uncaught
exception, and no table at all is produced; the other observation of
series `"X"` and all of series `"Y"` are lost with it. -/
theorem na_value_aborts_run :
    runApp (.success ⟨some ⟨some naBatch⟩⟩) = .crashed "Unable to parse string: N/A" ∧
    buildTable naBatch = .error "Unable to parse string: N/A" :=
  ⟨by decide, by decide⟩

/-- Claim C1 (amended): a value field that does not parse as a number
prevents any table from being produced — equivalently, every produced
table comes from a batch in which every single value field parsed. -/
theorem buildTable_ok_values_parse (ss : List RawSeries) (t : Table)
    (hok : buildTable ss = .ok t) :
    ∀ s ∈ ss, ∀ o ∈ s.data, ∃ v, parseNumeric o.value = some v := by
  intro s hs o ho
  obtain ⟨col, hps⟩ := go_processed ss ⟨[], []⟩ t hok s hs
  obtain ⟨ds, vs, hds, hvs, hcol⟩ := processSeries_ok_parts s col hps
  obtain ⟨v, hfo⟩ := mapE_ok_forall _ s.data vs hvs o ho
  cases hnum : parseNumeric o.value with
  | none => rw [hnum] at hfo; cases hfo
  | some v2 => exact ⟨v2, rfl⟩

theorem buildTable_ok_values_parse_witness :
    ∃ v, parseNumeric "3" = some v :=
  buildTable_ok_values_parse demoBatch demoT (by decide) demoS1 (by decide)
    ⟨"2020", "M03", "3"⟩ (by decide)

/-- Claim C6 (code-bug evidence): period codes `"M01"`..`"M12"`
resolve to the first of the corresponding month, but an observation
with any other period code — here the real annual-average code
`"M13"` — is neither rejected nor skipped individually: the blind
`replace('M', '-')` produces an unparsable date string, the date
conversion raises, and the whole run aborts with no table. -/
theorem m13_aborts_run :
    runApp (.success ⟨some ⟨some m13Batch⟩⟩) = .crashed "Unable to parse date: 2020-13" ∧
    parseYM ("2020" ++ replaceM "M01") = some ⟨2020, 1⟩ ∧
    parseYM ("2020" ++ replaceM "M12") = some ⟨2020, 12⟩ ∧
    parseYM ("2020" ++ replaceM "M13") = none :=
  ⟨by decide, by decide, by decide, by decide⟩

/-- Claim C7: renaming only relabels columns — the index (hence row
count and row order) is untouched, the stored column data is untouched
in order and content, a column whose key is not in the mapping keeps
its original key, and a mapped column gets its label. -/
theorem renameCols_spec (t : Table) (m : List (String × String)) :
    (renameCols t m).index = t.index ∧
    (renameCols t m).cols.map Prod.snd = t.cols.map Prod.snd ∧
    (∀ p ∈ t.cols, lookupFirst m p.1 = none → (p.1, p.2) ∈ (renameCols t m).cols) ∧
    (∀ p ∈ t.cols, ∀ lbl, lookupFirst m p.1 = some lbl → (lbl, p.2) ∈ (renameCols t m).cols) := by
  refine ⟨rfl, ?_, ?_, ?_⟩
  · simp only [renameCols, List.map_map]
    rfl
  · intro p hp hnone
    refine List.mem_map.mpr ⟨p, hp, ?_⟩
    simp [hnone]
  · intro p hp lbl hlbl
    refine List.mem_map.mpr ⟨p, hp, ?_⟩
    simp [hlbl]

theorem renameCols_spec_witness :
    (renameCols demoT demoMap).index = demoT.index ∧
    ("Y", demoColY) ∈ (renameCols demoT demoMap).cols ∧
    ("Series X", demoColX) ∈ (renameCols demoT demoMap).cols :=
  ⟨(renameCols_spec demoT demoMap).1,
   (renameCols_spec demoT demoMap).2.2.1 ("Y", demoColY) (by decide) (by decide),
   (renameCols_spec demoT demoMap).2.2.2 ("X", demoColX) (by decide) "Series X" (by decide)⟩

/-- Claim C3: for every valid batch (no series observes the same date
twice) that builds successfully, the table's index is strictly
ascending by date — even when the API listed observations newest-first
or unsorted. -/
theorem buildTable_sorted (ss : List RawSeries) (t : Table) (hv : validBatch ss = true)
    (hok : buildTable ss = .ok t) : t.index.Pairwise dateLt := by
  cases ss with
  | nil =>
    simp only [buildTable, buildTableGo] at hok
    cases hok
    simp [sortTable, List.insertionSort]
  | cons s rest =>
    obtain ⟨col, hps⟩ :=
      go_processed (s :: rest) ⟨[], []⟩ t hok s (List.mem_cons_self s rest)
    obtain ⟨ds, vs, hds, hvs, hcol⟩ := processSeries_ok_parts s col hps
    have hidx := buildTable_cons_index s rest t col hps hok
    rw [processSeries_keys s col ds hps hds] at hidx
    have hnd : ds.Nodup := validBatch_nodup (s :: rest) s ds hv (List.mem_cons_self s rest) hds
    rw [hidx]
    exact sorted_nodup_pairwise_lt _ (List.sorted_insertionSort dateLe ds)
      (((List.perm_insertionSort dateLe ds).nodup_iff).mpr hnd)

theorem buildTable_sorted_witness : demoT.index.Pairwise dateLt :=
  buildTable_sorted demoBatch demoT (by decide) (by decide)

/-- Claim C8 (counterexample): the index of the built table is not the
union of the observed dates — series `"Y"` observes 2020-04, which is
absent from the built index because only the first series' dates form
the index. -/
theorem unionDates_counterexample :
    buildTable demoBatch = .ok demoT ∧
    (⟨2020, 4⟩ : Date) ∈ unionDates demoBatch ∧
    decide ((⟨2020, 4⟩ : Date) ∈ demoT.index) = false :=
  ⟨by decide, by decide, by decide⟩

/-- Claim C8 (amended): the date index of the built table is the
(sorted) set of dates observed by the first series of the batch;
observations of later series at other dates are dropped, and for every
series and every index date at which that series has no observation
the cell is absent, never zero-filled. -/
theorem buildTable_index_firstSeries (s : RawSeries) (rest : List RawSeries) (t : Table)
    (col : List (Date × Dec)) (name : String) (d : Date) :
    (buildTable (s :: rest) = .ok t → processSeries s = .ok col →
      t.index = List.insertionSort dateLe (col.map Prod.fst)) ∧
    (∀ s2 ∈ s :: rest, buildTable (s :: rest) = .ok t → s2.seriesID = name →
      (∀ s3 ∈ s :: rest, s3.seriesID = name → s3 = s2) →
      processSeries s2 = .ok col → d ∈ t.index → d ∉ col.map Prod.fst →
      cellAt t name d = none) := by
  constructor
  · intro hok hps
    exact buildTable_cons_index s rest t col hps hok
  · intro s2 hs2 hok hid huniq hps hd hnot
    have hcol : lookupFirst t.cols name = some col :=
      go_col (s :: rest) ⟨[], []⟩ t s2 name col hok rfl hs2 hid huniq hps
    simp only [cellAt, findCol, hcol]
    exact lookupFirst_eq_none col d hnot

theorem buildTable_index_firstSeries_witness :
    demoT.index = List.insertionSort dateLe (demoColX.map Prod.fst) ∧
    cellAt demoT "Y" ⟨2020, 2⟩ = none :=
  ⟨(buildTable_index_firstSeries demoS1 [demoS2] demoT demoColX "X" ⟨2020, 2⟩).1
     (by decide) (by decide),
   (buildTable_index_firstSeries demoS1 [demoS2] demoT demoColY "Y" ⟨2020, 2⟩).2
     demoS2 (by decide) (by decide) (by decide) (by decide) (by decide) (by decide)
     (by decide)⟩

theorem osub_none_left (x : Option Dec) : osub none x = none := by
  cases x <;> rfl

theorem diffList_getElem_none (l : List (Option Dec)) (m : Nat) (hml : m < l.length)
    (hm : m < (diffList l).length) (hln : l[m] = none) : (diffList l)[m] = none := by
  cases m with
  | zero => exact diffList_getElem_zero l hm
  | succ j =>
    have hj : j < l.length := by omega
    rw [diffList_getElem_succ l j hml hj hm, hln]
    exact osub_none_left _

theorem monthOverMonth_length (t : Table) (name : String) :
    (monthOverMonth t name).length = t.index.length := by
  simp [monthOverMonth, diffList_length, columnValues]

theorem tableYears_shape (t : Table) :
    tableYears t = [] ∨
    ∃ lo n, tableYears t = (List.range n).map (fun k => lo + k) := by
  unfold tableYears
  cases t.index.map Date.year with
  | nil => exact Or.inl rfl
  | cons y ys => exact Or.inr ⟨_, _, rfl⟩

theorem lastInYear_none (t : Table) (name : String) (y : Nat)
    (hno : ∀ d ∈ t.index, d.year ≠ y) : lastInYear t name y = none := by
  unfold lastInYear
  have hfil : t.index.filter (fun d => d.year == y) = [] :=
    List.filter_eq_nil_iff.mpr (fun d hd => by
      simp only [beq_iff_eq]
      exact hno d hd)
  rw [hfil]
  rfl

/-- Claim C4: for any level column of the table, the derived
month-over-month series holds, at every row after the first, the
difference between the column's value at that row's date and at the
previous row's date (absent when either cell is absent), and is absent
at the first row. -/
theorem monthOverMonth_spec (t : Table) (name : String) (i : Nat)
    (h : i + 1 < t.index.length) :
    (monthOverMonth t name).get ⟨i + 1, by rw [monthOverMonth_length]; exact h⟩ =
      osub (cellAt t name (t.index.get ⟨i + 1, h⟩))
        (cellAt t name (t.index.get ⟨i, by omega⟩)) ∧
    (monthOverMonth t name).get ⟨0, by rw [monthOverMonth_length]; omega⟩ = none := by
  have hlen : (columnValues t name).length = t.index.length := by
    simp [columnValues]
  constructor
  · have h1 : i + 1 < (columnValues t name).length := by rw [hlen]; exact h
    have hi : i < (columnValues t name).length := by omega
    have h2 : i + 1 < (diffList (columnValues t name)).length := by
      rw [diffList_length]
      exact h1
    simp only [monthOverMonth, List.get_eq_getElem]
    rw [diffList_getElem_succ (columnValues t name) i h1 hi h2]
    simp [columnValues]
  · simp only [monthOverMonth, List.get_eq_getElem]
    exact diffList_getElem_zero _ (by rw [diffList_length, hlen]; omega)

theorem monthOverMonth_spec_witness :
    (monthOverMonth demoT "X").get ⟨1, by decide⟩ =
      osub (cellAt demoT "X" (demoT.index.get ⟨1, by decide⟩))
        (cellAt demoT "X" (demoT.index.get ⟨0, by decide⟩)) ∧
    (monthOverMonth demoT "X").get ⟨0, by decide⟩ = none :=
  monthOverMonth_spec demoT "X" 0 (by decide)

/-- Claim C5: the yearly change series takes, per calendar year, the
last observed value of the level column, differences consecutive
years, and drops the undefined entries: a calendar year with no
observations never appears in the result (in particular not as a
fabricated zero-valued entry), while consecutive observed years
contribute exactly the difference of their last observed values. -/
theorem yearlyChange_spec (t : Table) (name : String) (y : Nat) :
    ((∀ d ∈ t.index, d.year ≠ y) →
      (yearlyChangeDropna t name).filter (fun p => p.1 == y) = []) ∧
    (∀ a b : Dec, y ∈ tableYears t → y + 1 ∈ tableYears t →
      lastInYear t name y = some a → lastInYear t name (y + 1) = some b →
      (y + 1, b.sub a) ∈ yearlyChangeDropna t name) := by
  constructor
  · intro hno
    refine List.filter_eq_nil_iff.mpr ?_
    intro p hp
    simp only [beq_iff_eq]
    intro hpy
    obtain ⟨q, hq, hqe⟩ := List.mem_filterMap.mp hp
    obtain ⟨q1, q2⟩ := q
    cases q2 with
    | none => exact Option.noConfusion hqe
    | some v =>
      have hqp : (q1, v) = p := Option.some.inj hqe
      rw [← hqp] at hpy
      have hq1y : q1 = y := hpy
      unfold yearlyChange at hq
      obtain ⟨n, hn⟩ := List.get_of_mem hq
      rw [List.get_eq_getElem, List.getElem_zip] at hn
      injection hn with hn1 hn2
      have hzl : ((tableYears t).zip (diffList (yearlyLast t name))).length =
          (tableYears t).length := by
        simp [List.length_zip, diffList_length, yearlyLast]
      have hty : (n : Nat) < (tableYears t).length := by
        have h3 := n.isLt
        omega
      have hml : (n : Nat) < (yearlyLast t name).length := by
        simpa [yearlyLast] using hty
      have hdn : (n : Nat) < (diffList (yearlyLast t name)).length := by
        rw [diffList_length]
        exact hml
      have hyl : (yearlyLast t name)[(n : Nat)] = none := by
        simp only [yearlyLast, List.getElem_map]
        rw [hn1, hq1y]
        exact lastInYear_none t name y hno
      have hcontra := diffList_getElem_none (yearlyLast t name) (n : Nat) hml hdn hyl
      rw [hn2] at hcontra
      exact Option.noConfusion hcontra
  · intro a b hy hy1 ha hb
    rcases tableYears_shape t with hsh | ⟨lo, nn, hsh⟩
    · rw [hsh] at hy
      cases hy
    · rw [hsh] at hy hy1
      obtain ⟨k, hk, hkv⟩ := List.mem_map.mp hy
      obtain ⟨k2, hk2, hk2v⟩ := List.mem_map.mp hy1
      have hkr := List.mem_range.mp hk
      have hk2r := List.mem_range.mp hk2
      have hkk : k2 = k + 1 := by omega
      subst hkk
      refine List.mem_filterMap.mpr ⟨(y + 1, some (b.sub a)), ?_, rfl⟩
      have hty : (tableYears t).length = nn := by rw [hsh]; simp
      have hml2 : (yearlyLast t name).length = nn := by simp [yearlyLast, hty]
      have hdl : (diffList (yearlyLast t name)).length = nn := by
        rw [diffList_length]
        exact hml2
      have hkzl : k + 1 < ((tableYears t).zip (diffList (yearlyLast t name))).length := by
        simp only [List.length_zip, hty, hdl, min_self]
        exact hk2r
      have hmem := List.getElem_mem hkzl
      suffices heq : ((tableYears t).zip (diffList (yearlyLast t name)))[k + 1] =
          (y + 1, some (b.sub a)) by
        rw [heq] at hmem
        exact hmem
      rw [List.getElem_zip, Prod.mk.injEq]
      refine ⟨?_, ?_⟩
      · simp only [hsh, List.getElem_map, List.getElem_range]
        omega
      · have hmlk : k + 1 < (yearlyLast t name).length := by rw [hml2]; exact hk2r
        have hmk : k < (yearlyLast t name).length := by omega
        have hdk : k + 1 < (diffList (yearlyLast t name)).length := by
          rw [hdl]
          exact hk2r
        rw [diffList_getElem_succ _ k hmlk hmk hdk]
        simp only [yearlyLast, List.getElem_map, hsh, List.getElem_range]
        rw [hk2v, hkv, hb, ha]
        rfl

theorem yearlyChange_spec_witness :
    (yearlyChangeDropna demoYearT "L").filter (fun p => p.1 == 2021) = [] ∧
    ((2023 : Nat), Dec.sub ⟨7, 0⟩ ⟨5, 0⟩) ∈ yearlyChangeDropna demoYearT "L" :=
  ⟨(yearlyChange_spec demoYearT "L" 2021).1 (by decide),
   (yearlyChange_spec demoYearT "L" 2022).2 ⟨5, 0⟩ ⟨7, 0⟩ (by decide) (by decide)
     (by decide) (by decide)⟩

end BLSModel
